import Mathlib

/-!
Verification of the batch-migration engine in `convex-helpers`
(`values.ts`: `makeMigration`, `startMigrationsSerially`, `getStatus`,
`cancelMigration`).

The embedding models:
* documents of the target table as `Doc` (an id plus one mutable field,
  standing for the patchable portion of a Convex document);
* the opaque pagination cursor as `Option Nat` (`none` = JavaScript
  `null` = start from the beginning, `some k` = a continuation token at
  position `k`);
* optional (possibly-absent) JavaScript values as `Option`;
  in particular the `cursor` mutation argument is
  `Option (Option Nat)` (`none` = `undefined`, `some none` = `null`);
* the scheduler's system table as a function `Nat → Option Job`;
* one transactional execution of the migration mutation as the pure
  function `runMigration`, which returns both the scheduler calls made
  during execution (`calls`) and the durably committed effects
  (`stateDb`, `docs`, `scheduled`) — a thrown `ConvexError` rolls the
  transaction back, so on the error path the committed effects equal
  the inputs and `scheduled` is empty.
-/

namespace ConvexMigrations

/-- Scheduler job states, per the Convex `_scheduled_functions` table. -/
inductive JobState where
  | pending
  | inProgress
  | success
  | failed
  | canceled
deriving DecidableEq, Repr

/-- A document of the table being migrated: an identity plus one mutable
field.  `migrateOne` returning `some p` stands for a truthy partial-update
payload that patches the field to `p`; `none` stands for returning
nothing (no patch). -/
structure Doc where
  id : Nat
  val : Int
deriving DecidableEq, Repr

/-- The arguments of the migration mutation (`migrationArgs` in the
source): `fnName` is required; `cursor`, `batchSize`, `next` and
`dryRun` are optional (`none` = `undefined`). -/
structure MigrationArgs where
  fnName : String
  cursor : Option (Option Nat) := none
  batchSize : Option Nat := none
  next : Option (List String) := none
  dryRun : Option Bool := none
deriving DecidableEq, Repr

/-- A scheduler job (`ctx.db.system.get(workerId)`): its live state and
the arguments it was scheduled with. -/
structure Job where
  state : JobState
  args : MigrationArgs
deriving DecidableEq, Repr

/-- One persisted migration-state record (`migrationsFields` in the
source).  `workerId` and `latestEnd` are optional fields. -/
structure MigrationState where
  name : String
  table : String
  cursor : Option Nat
  isDone : Bool
  workerId : Option Nat := none
  processed : Nat
  latestStart : Nat
  latestEnd : Option Nat := none
deriving DecidableEq, Repr

/-- A scheduler call made via `ctx.scheduler.runAfter(delay, fnRef, args)`:
the id the scheduler assigned to the new job, the delay, the function
scheduled and its arguments. -/
structure ScheduledJob where
  id : Nat
  delay : Nat
  fnName : String
  args : MigrationArgs
deriving DecidableEq, Repr

/-- The static configuration of one migration: whether a migration table
was configured (`opts.migrationTable`), the target table, the two
batch-size defaults (the function-level one and the `makeMigration`-level
one), and the per-document transform. -/
structure MigrationConfig where
  hasTable : Bool
  table : String
  fnDefaultBatchSize : Option Nat := none
  optsDefaultBatchSize : Option Nat := none
  migrateOne : Doc → Option Int

/-- The transactional environment an invocation runs in: the migration
table contents (in insertion order), the target table contents, the
scheduler's job table, the current time, and the id the scheduler will
assign to the next job it creates. -/
structure Env where
  stateDb : List MigrationState
  docs : List Doc
  jobs : Nat → Option Job
  now : Nat
  nextJobId : Nat

/-- `DEFAULT_BATCH_SIZE` from the source. -/
def DEFAULT_BATCH_SIZE : Nat := 100

/-- Position a cursor denotes: `null` (`none`) is the beginning. -/
def cursorPos : Option Nat → Nat
  | none => 0
  | some k => k

/-- Result of `ctx.db.query(table).paginate({cursor, numItems})`. -/
structure PageResult where
  page : List Doc
  continueCursor : Nat
  isDone : Bool
deriving DecidableEq, Repr

/-- The document store's pagination: from the cursor's position, return
at most `numItems` documents, the continuation token, and whether the
table is exhausted. -/
def paginate (docs : List Doc) (cursor : Option Nat) (numItems : Nat) : PageResult :=
  let pos := cursorPos cursor
  let page := (docs.drop pos).take numItems
  { page := page
    continueCursor := pos + page.length
    isDone := decide ((docs.drop pos).length ≤ numItems) }

/-- `ctx.db.patch(docId, partialFields)`: update the document with that
id, leaving all others untouched. -/
def patchDoc (docs : List Doc) (docId : Nat) (p : Int) : List Doc :=
  docs.map (fun d => if d.id = docId then { d with val := p } else d)

/-- The per-page loop of the handler: for each document of the page call
`migrateOne`; if it returns a payload, patch the document, otherwise
leave it untouched. -/
def applyBatch (mig : Doc → Option Int) (docs : List Doc) (page : List Doc) : List Doc :=
  page.foldl
    (fun tbl d =>
      match mig d with
      | some p => patchDoc tbl d.id p
      | none => tbl)
    docs

/-- `ctx.db.get(docId)` on the target table. -/
def getDoc (docs : List Doc) (docId : Nat) : Option Doc :=
  docs.find? (fun d => d.id == docId)

/-- `db.query(tbl).withIndex("name", q => q.eq("name", n)).unique()`:
lookup of a migration-state record by its unique name. -/
def findByName (stateDb : List MigrationState) (n : String) : Option MigrationState :=
  stateDb.find? (fun s => s.name == n)

/-- The lookup the handler performs when it may be configured without a
migration table: `migrationTableName && (await db.query(...))`. -/
def lookupMigration (hasTable : Bool) (stateDb : List MigrationState) (n : String) :
    Option MigrationState :=
  if hasTable then findByName stateDb n else none

/-- `db.patch(state._id, state)`: replace the (unique, name-keyed)
record with the final state. -/
def patchState (stateDb : List MigrationState) (n : String) (st : MigrationState) :
    List MigrationState :=
  stateDb.map (fun r => if r.name == n then st else r)

/-- Step 1's freshly synthesized state: `cursor` is `args.cursor ?? null`,
`processed = 0`, `latestStart = now`. -/
def initialState (cfg : MigrationConfig) (env : Env) (args : MigrationArgs) : MigrationState :=
  { name := args.fnName
    table := cfg.table
    cursor := args.cursor.getD none
    isDone := false
    workerId := none
    processed := 0
    latestStart := env.now
    latestEnd := none }

/-- Result of step 1: the working state, whether a persisted `_id`
exists, and the migration table after a possible fresh insert. -/
structure LoadResult where
  state : MigrationState
  hasId : Bool
  stateDb : List MigrationState
deriving Repr

/-- Step 1 of the handler: load the stored record for `fnName`, or
synthesize and insert a fresh one when a migration table is configured;
with no migration table the engine is stateless (`hasId = false`). -/
def loadState (cfg : MigrationConfig) (env : Env) (args : MigrationArgs) : LoadResult :=
  let st := initialState cfg env args
  if cfg.hasTable then
    match findByName env.stateDb args.fnName with
    | some existing => { state := existing, hasId := true, stateDb := env.stateDb }
    | none => { state := st, hasId := true, stateDb := env.stateDb ++ [st] }
  else
    { state := st, hasId := false, stateDb := env.stateDb }

/-- Whether the recorded worker's job is still pending or in progress
(`worker && (worker.state.kind === "pending" || ... === "inProgress")`). -/
def workerActive (jobs : Nat → Option Job) (workerId : Option Nat) : Bool :=
  match workerId.bind jobs with
  | some j => decide (j.state = .pending ∨ j.state = .inProgress)
  | none => false

/-- The scan of step 5 over `next`: find the first listed migration whose
persisted record is absent or not done, returning it with the remaining
tail (`const [nextFn, ...rest] = next.slice(i)`). -/
def findNextPending (hasTable : Bool) (stateDb : List MigrationState) :
    List String → Option (String × List String)
  | [] => none
  | n :: rest =>
    match lookupMigration hasTable stateDb n with
    | some d => if d.isDone then findNextPending hasTable stateDb rest else some (n, rest)
    | none => some (n, rest)

/-- The `ConvexError` payloads the handler can throw: the dry-run abort
after the batch (`\x7bbefore, after, ...state}`) and the dry-run abort at
the end of the handler (`\x7bargs, ...state}`). -/
inductive MigrationError where
  | dryRunBatch (before : Option Doc) (after : Option Doc) (state : MigrationState)
  | dryRunFinal (args : MigrationArgs) (state : MigrationState)
deriving DecidableEq, Repr

instance {ε α : Type} [DecidableEq ε] [DecidableEq α] : DecidableEq (Except ε α) :=
  fun a b =>
    match a, b with
    | .error e, .error f =>
      if h : e = f then .isTrue (by rw [h])
      else .isFalse (by intro hh; cases hh; exact h rfl)
    | .error _, .ok _ => .isFalse (by intro h; cases h)
    | .ok _, .error _ => .isFalse (by intro h; cases h)
    | .ok x, .ok y =>
      if h : x = y then .isTrue (by rw [h])
      else .isFalse (by intro hh; cases hh; exact h rfl)

/-- The observable outcome of one invocation of the migration mutation:
the returned state or thrown error, every scheduler call made during
execution, and the durably committed migration table, target table and
created jobs (a thrown error rolls the whole transaction back). -/
structure RunOutcome where
  result : Except MigrationError MigrationState
  calls : List ScheduledJob
  stateDb : List MigrationState
  docs : List Doc
  scheduled : List ScheduledJob
deriving DecidableEq, Repr

/-- Step 3 of the handler (scheduling): if the state is not done,
schedule the continuation for the same `fnName` with zero delay and the
advanced cursor, recording the new job as `workerId`; otherwise scan
`next` for the first migration not yet done and schedule it with the
tail as its own `next`.  Returns the updated state and the scheduler
calls made. -/
def scheduleStep (cfg : MigrationConfig) (env : Env) (args : MigrationArgs)
    (stateDb1 : List MigrationState) (st1 : MigrationState) :
    MigrationState × List ScheduledJob :=
  if st1.isDone = false then
    ({ st1 with workerId := some env.nextJobId },
      [{ id := env.nextJobId, delay := 0, fnName := args.fnName
         args := { args with cursor := some st1.cursor } }])
  else
    match findNextPending cfg.hasTable stateDb1 (args.next.getD []) with
    | some (n, rest) =>
      if n ≠ "" then
        (st1,
          [{ id := env.nextJobId, delay := 0, fnName := n
             args := { fnName := n, next := some rest } }])
      else (st1, [])
    | none => (st1, [])

/-- Steps 3 and 4 of the handler: schedule the continuation or the next
migration of the series, persist the final state when an `_id` exists,
and (dead code in practice, kept for faithfulness) throw the final
dry-run error. -/
def finishRun (cfg : MigrationConfig) (env : Env) (args : MigrationArgs)
    (hasId : Bool) (stateDb1 : List MigrationState) (docs2 : List Doc)
    (st1 : MigrationState) : RunOutcome :=
  let sc := scheduleStep cfg env args stateDb1 st1
  let stateDb2 := if hasId then patchState stateDb1 args.fnName sc.1 else stateDb1
  if args.dryRun.getD false = true then
    { result := .error (.dryRunFinal args sc.1)
      calls := sc.2
      stateDb := env.stateDb
      docs := env.docs
      scheduled := [] }
  else
    { result := .ok sc.1
      calls := sc.2
      stateDb := stateDb2
      docs := docs2
      scheduled := sc.2 }

/-- The handler of the mutation produced by `makeMigration` (one
transactional Batch Step execution), translated from the source:

1. load or create the state;
2. if there is no `_id`, or the stored cursor strictly equals the
   caller-supplied one, or `dryRun` is set, execute one batch
   (paginate, transform, patch, advance the state, and on `dryRun`
   throw the diagnostic error); otherwise treat the call as a
   race/resume: a still-active worker makes it a no-op returning the
   stored state, and an explicit cursor argument resets
   `cursor`/`isDone`/`latestStart`/`processed`;
3. schedule the continuation or the next migration of the series;
4. persist the final state. -/
def runMigration (cfg : MigrationConfig) (env : Env) (args : MigrationArgs) : RunOutcome :=
  let lr := loadState cfg env args
  let dryRun := args.dryRun.getD false
  if lr.hasId = false ∨ args.cursor = some lr.state.cursor ∨ dryRun = true then
    let numItems :=
      args.batchSize.getD
        (cfg.fnDefaultBatchSize.getD (cfg.optsDefaultBatchSize.getD DEFAULT_BATCH_SIZE))
    let cursor :=
      if dryRun = true ∧ args.cursor.isSome then args.cursor.getD none else lr.state.cursor
    let pr := paginate env.docs cursor numItems
    let docs2 := applyBatch cfg.migrateOne env.docs pr.page
    let st1 : MigrationState :=
      { lr.state with
        cursor := some pr.continueCursor
        isDone := pr.isDone
        processed := lr.state.processed + pr.page.length
        latestEnd := if pr.isDone then some env.now else lr.state.latestEnd
        workerId := if pr.isDone then none else lr.state.workerId }
    if dryRun = true then
      { result := .error (.dryRunBatch pr.page.head?
          (pr.page.head?.bind (fun d => getDoc docs2 d.id)) st1)
        calls := []
        stateDb := env.stateDb
        docs := env.docs
        scheduled := [] }
    else
      finishRun cfg env args lr.hasId lr.stateDb docs2 st1
  else
    if workerActive env.jobs lr.state.workerId = true then
      { result := .ok lr.state
        calls := []
        stateDb := lr.stateDb
        docs := env.docs
        scheduled := [] }
    else
      let st1 :=
        match args.cursor with
        | some c =>
          { lr.state with cursor := c, isDone := false, latestStart := env.now, processed := 0 }
        | none => lr.state
      finishRun cfg env args lr.hasId lr.stateDb env.docs st1

/-- `startMigrationsSerially(ctx, fnRefs)`: schedule only the first
migration of the list with zero delay, passing the names of the rest in
order as its `next`; it touches only the scheduler. -/
def startMigrationsSerially (nextJobId : Nat) (fnRefs : List String) : List ScheduledJob :=
  match fnRefs with
  | [] => []
  | fnRef :: rest =>
    [{ id := nextJobId, delay := 0, fnName := fnRef
       args := { fnName := fnRef, next := some rest } }]

/-- One entry of `getStatus`'s result: a done migration is returned as
the bare stored record (`plain`), a not-done one is returned with the
three enrichment fields spread in (`enriched`), and a requested name
with no stored record yields the "not found" fallback object, whose
enrichment fields are necessarily absent since its `workerId` is
`undefined`. -/
inductive StatusEntry where
  | plain (s : MigrationState)
  | enriched (s : MigrationState) (workerStatus : Option JobState)
      (batchSize : Option Nat) (next : Option (List String))
  | notFound (name : String)
deriving DecidableEq, Repr

/-- The stored state carried by a status entry (absent on the
"not found" fallback). -/
def StatusEntry.stateOf : StatusEntry → Option MigrationState
  | .plain s => some s
  | .enriched s _ _ _ => some s
  | .notFound _ => none

/-- Reading `workerStatus` off a status entry; on a bare record the
field is absent (JavaScript `undefined`). -/
def StatusEntry.workerStatus : StatusEntry → Option JobState
  | .plain _ => none
  | .enriched _ ws _ _ => ws
  | .notFound _ => none

/-- Reading `batchSize` off a status entry. -/
def StatusEntry.batchSizeOf : StatusEntry → Option Nat
  | .plain _ => none
  | .enriched _ _ bs _ => bs
  | .notFound _ => none

/-- Reading `next` off a status entry. -/
def StatusEntry.nextOf : StatusEntry → Option (List String)
  | .plain _ => none
  | .enriched _ _ _ nx => nx
  | .notFound _ => none

/-- The per-record mapping of `getStatus`: a done record is returned
as-is; otherwise it is enriched with the live worker's status and the
`batchSize` and `next` read from the worker job's arguments. -/
def statusOf (jobs : Nat → Option Job) (s : MigrationState) : StatusEntry :=
  if s.isDone = true then .plain s
  else
    let worker := s.workerId.bind jobs
    .enriched s (worker.map (fun j => j.state))
      (worker.bind (fun j => j.args.batchSize))
      (worker.bind (fun j => j.args.next))

/-- `getStatus(ctx, migrationTable, migrations?)`: with an explicit list,
look each name up by the unique index (falling back to the "not found"
object); with no list, take the ten most recent records.  Each record
then goes through `statusOf`.  The function only reads. -/
def getStatus (stateDb : List MigrationState) (jobs : Nat → Option Job)
    (migrations : Option (List String)) : List StatusEntry :=
  match migrations with
  | some names =>
    names.map (fun n =>
      match findByName stateDb n with
      | some s => statusOf jobs s
      | none => .notFound n)
  | none => (stateDb.reverse.take 10).map (statusOf jobs)

/-- The string form of a job state (`worker.state.kind`). -/
def jobStateKind : JobState → String
  | .pending => "pending"
  | .inProgress => "inProgress"
  | .success => "success"
  | .failed => "failed"
  | .canceled => "canceled"

/-- Outcome of `cancelMigration`: the stored state it returned, the
`workerStatus` field of the returned object (absent when the state was
returned bare), and whether `ctx.scheduler.cancel` was invoked. -/
structure CancelOutcome where
  state : MigrationState
  workerStatus : Option String
  cancelCalled : Bool
deriving DecidableEq, Repr

/-- `cancelMigration(ctx, migrationTable, migration)`, translated from
the source: look the state up by name (throwing "not found" if absent);
return the bare state early when `state.isDone` is false; otherwise
look up the recorded worker and, if it is pending or in progress,
cancel it and report `workerStatus: "canceled"`, else report the
worker's last known status (or "not found"). -/
def cancelMigration (stateDb : List MigrationState) (jobs : Nat → Option Job)
    (name : String) : Except String CancelOutcome :=
  match findByName stateDb name with
  | none => .error ("Migration " ++ name ++ " not found")
  | some state =>
    if state.isDone = false then
      .ok { state := state, workerStatus := none, cancelCalled := false }
    else
      match state.workerId.bind jobs with
      | some worker =>
        if worker.state = .pending ∨ worker.state = .inProgress then
          .ok { state := state, workerStatus := some "canceled", cancelCalled := true }
        else
          .ok { state := state, workerStatus := some (jobStateKind worker.state)
                cancelCalled := false }
      | none =>
        .ok { state := state, workerStatus := some "not found", cancelCalled := false }

/-- The direction of the spec's `latestEnd`/`isDone` invariant that the
code maintains on committed records: a done record has `latestEnd` set
and `workerId` cleared. -/
def doneInv (r : MigrationState) : Prop :=
  r.isDone = true → (r.latestEnd ≠ none ∧ r.workerId = none)

instance (r : MigrationState) : Decidable (doneInv r) :=
  decidable_of_iff (r.isDone = true → (r.latestEnd ≠ none ∧ r.workerId = none)) Iff.rfl

/-! ### Helper lemmas -/

theorem Option.getD_false_of_ne_some_true {o : Option Bool} (h : o ≠ some true) :
    o.getD false = false := by
  cases o with
  | none => rfl
  | some b =>
    cases b with
    | false => rfl
    | true => exact absurd rfl h

/-- Unfolding `runMigration` on a dry run: the batch is computed, the
diagnostic error is thrown, and nothing is committed. -/
theorem runMigration_dryRun_eq (cfg : MigrationConfig) (env : Env) (fnName : String)
    (curArg : Option (Option Nat)) (bs : Option Nat) (nx : Option (List String)) :
    runMigration cfg env
        { fnName := fnName, cursor := curArg, batchSize := bs, next := nx, dryRun := some true } =
      (let lr := loadState cfg env
        { fnName := fnName, cursor := curArg, batchSize := bs, next := nx, dryRun := some true }
      let numItems :=
        bs.getD (cfg.fnDefaultBatchSize.getD (cfg.optsDefaultBatchSize.getD DEFAULT_BATCH_SIZE))
      let cur := if curArg.isSome then curArg.getD none else lr.state.cursor
      let pr := paginate env.docs cur numItems
      let docs2 := applyBatch cfg.migrateOne env.docs pr.page
      { result := .error (.dryRunBatch pr.page.head?
          (pr.page.head?.bind fun d => getDoc docs2 d.id)
          { lr.state with
            cursor := some pr.continueCursor
            isDone := pr.isDone
            processed := lr.state.processed + pr.page.length
            latestEnd := if pr.isDone = true then some env.now else lr.state.latestEnd
            workerId := if pr.isDone = true then none else lr.state.workerId })
        calls := []
        stateDb := env.stateDb
        docs := env.docs
        scheduled := [] }) := by
  simp only [runMigration, Option.getD_some, eq_self_iff_true, or_true, if_true, true_and,
    ite_true]

@[simp] theorem paginate_page (docs : List Doc) (cur : Option Nat) (n : Nat) :
    (paginate docs cur n).page = (docs.drop (cursorPos cur)).take n := rfl

@[simp] theorem paginate_continueCursor (docs : List Doc) (cur : Option Nat) (n : Nat) :
    (paginate docs cur n).continueCursor =
      cursorPos cur + ((docs.drop (cursorPos cur)).take n).length := rfl

@[simp] theorem paginate_isDone (docs : List Doc) (cur : Option Nat) (n : Nat) :
    (paginate docs cur n).isDone = decide ((docs.drop (cursorPos cur)).length ≤ n) := rfl

/-- With a migration table configured and a stored record present,
step 1 loads that record without touching the table. -/
theorem loadState_found (cfg : MigrationConfig) (env : Env) (args : MigrationArgs)
    (s : MigrationState) (hT : cfg.hasTable = true)
    (hs : findByName env.stateDb args.fnName = some s) :
    loadState cfg env args = { state := s, hasId := true, stateDb := env.stateDb } := by
  simp [loadState, hT, hs]

/-- Unfolding `runMigration` when a batch executes without dry run
(stateless mode, or the stored cursor strictly equals the supplied one). -/
theorem runMigration_exec_eq (cfg : MigrationConfig) (env : Env) (args : MigrationArgs)
    (hdry : args.dryRun ≠ some true)
    (hexec : (loadState cfg env args).hasId = false ∨
      args.cursor = some (loadState cfg env args).state.cursor) :
    runMigration cfg env args =
      (let lr := loadState cfg env args
      let numItems := args.batchSize.getD
        (cfg.fnDefaultBatchSize.getD (cfg.optsDefaultBatchSize.getD DEFAULT_BATCH_SIZE))
      let pr := paginate env.docs lr.state.cursor numItems
      let docs2 := applyBatch cfg.migrateOne env.docs pr.page
      finishRun cfg env args lr.hasId lr.stateDb docs2
        { lr.state with
          cursor := some pr.continueCursor
          isDone := pr.isDone
          processed := lr.state.processed + pr.page.length
          latestEnd := if pr.isDone = true then some env.now else lr.state.latestEnd
          workerId := if pr.isDone = true then none else lr.state.workerId }) := by
  have hd : args.dryRun.getD false = false := Option.getD_false_of_ne_some_true hdry
  simp only [runMigration, hd, Bool.false_eq_true, false_and, or_false, if_false, ite_false]
  rw [if_pos hexec]

/-- Unfolding `runMigration` on the defer/resume path (a persisted
record exists and the supplied cursor differs from the stored one). -/
theorem runMigration_defer_eq (cfg : MigrationConfig) (env : Env) (args : MigrationArgs)
    (hdry : args.dryRun ≠ some true)
    (hid : (loadState cfg env args).hasId = true)
    (hcur : args.cursor ≠ some (loadState cfg env args).state.cursor) :
    runMigration cfg env args =
      (let lr := loadState cfg env args
      if workerActive env.jobs lr.state.workerId = true then
        { result := .ok lr.state, calls := [], stateDb := lr.stateDb, docs := env.docs,
          scheduled := [] }
      else
        finishRun cfg env args lr.hasId lr.stateDb env.docs
          (match args.cursor with
            | some c =>
              { lr.state with
                cursor := c
                isDone := false
                latestStart := env.now
                processed := 0 }
            | none => lr.state)) := by
  have hd : args.dryRun.getD false = false := Option.getD_false_of_ne_some_true hdry
  simp only [runMigration, hd, Bool.false_eq_true, false_and, or_false, if_false, ite_false]
  rw [if_neg]
  intro h
  rcases h with h | h
  · rw [hid] at h
    exact Bool.noConfusion h
  · exact hcur h

/-- The series-continuation calls of step 5 when the migration is done. -/
theorem scheduleStep_done (cfg : MigrationConfig) (env : Env) (args : MigrationArgs)
    (stateDb1 : List MigrationState) (st1 : MigrationState) (h : st1.isDone = true) :
    scheduleStep cfg env args stateDb1 st1 =
      (st1,
        match findNextPending cfg.hasTable stateDb1 (args.next.getD []) with
        | some (n, rest) =>
          if n ≠ "" then
            [{ id := env.nextJobId, delay := 0, fnName := n
               args := { fnName := n, next := some rest } }]
          else []
        | none => []) := by
  simp only [scheduleStep, h]
  cases hfp : findNextPending cfg.hasTable stateDb1 (args.next.getD []) with
  | none => simp
  | some p =>
    obtain ⟨n, rest⟩ := p
    by_cases hn : n = "" <;> simp [hn]

/-- The continuation call of step 5 when the migration is not done. -/
theorem scheduleStep_not_done (cfg : MigrationConfig) (env : Env) (args : MigrationArgs)
    (stateDb1 : List MigrationState) (st1 : MigrationState) (h : st1.isDone = false) :
    scheduleStep cfg env args stateDb1 st1 =
      ({ st1 with workerId := some env.nextJobId },
        [{ id := env.nextJobId, delay := 0, fnName := args.fnName
           args := { args with cursor := some st1.cursor } }]) := by
  simp [scheduleStep, h]

/-- `finishRun` without dry run: the scheduler calls are committed, the
final state is persisted when an `_id` exists, and the scheduled state
is returned. -/
theorem finishRun_eq (cfg : MigrationConfig) (env : Env) (args : MigrationArgs)
    (hasId : Bool) (stateDb1 : List MigrationState) (docs2 : List Doc)
    (st1 : MigrationState) (hdry : args.dryRun ≠ some true) :
    finishRun cfg env args hasId stateDb1 docs2 st1 =
      (let sc := scheduleStep cfg env args stateDb1 st1
      { result := .ok sc.1
        calls := sc.2
        stateDb := if hasId then patchState stateDb1 args.fnName sc.1 else stateDb1
        docs := docs2
        scheduled := sc.2 }) := by
  have hd : args.dryRun.getD false = false := Option.getD_false_of_ne_some_true hdry
  simp [finishRun, hd]

/-- Patching the record for `n` makes it the one `findByName` returns,
provided a record for `n` was present. -/
theorem findByName_patchState (db : List MigrationState) (n : String)
    (st s : MigrationState) (hname : st.name = n) (h : findByName db n = some s) :
    findByName (patchState db n st) n = some st := by
  induction db with
  | nil => simp [findByName] at h
  | cons r rest ih =>
    by_cases hr : r.name = n
    · have hbt : (r.name == n) = true := beq_iff_eq.mpr hr
      simp only [patchState, List.map_cons, findByName]
      rw [if_pos hbt]
      exact List.find?_cons_of_pos _ (beq_iff_eq.mpr hname)
    · have hb : ¬ ((r.name == n) = true) := by simp [beq_iff_eq, hr]
      have h2 : List.find? (fun s : MigrationState => s.name == n) (r :: rest) = some s := h
      have hstep : List.find? (fun s : MigrationState => s.name == n) (r :: rest) =
          List.find? (fun s : MigrationState => s.name == n) rest :=
        List.find?_cons_of_neg rest hb
      have h' : findByName rest n = some s := hstep.symm.trans h2
      have goalstep : List.find? (fun s : MigrationState => s.name == n)
            (r :: rest.map fun x => if (x.name == n) = true then st else x) =
          List.find? (fun s : MigrationState => s.name == n)
            (rest.map fun x => if (x.name == n) = true then st else x) :=
        List.find?_cons_of_neg _ hb
      simp only [patchState, List.map_cons, findByName]
      rw [if_neg hb]
      rw [goalstep]
      exact ih h'

/-- Every member of a patched table is the new record or an old member. -/
theorem mem_patchState {db : List MigrationState} {n : String}
    {st r : MigrationState} (h : r ∈ patchState db n st) : r = st ∨ r ∈ db := by
  simp only [patchState, List.mem_map] at h
  obtain ⟨a, ha, hfa⟩ := h
  by_cases hn : a.name == n
  · rw [if_pos hn] at hfa
    exact Or.inl hfa.symm
  · rw [if_neg hn] at hfa
    exact Or.inr (hfa ▸ ha)

/-- If every migration named in the list has a stored record marked
done, the step-5 scan finds nothing. -/
theorem findNextPending_eq_none (hasTable : Bool) (db : List MigrationState)
    (l : List String)
    (h : ∀ n ∈ l, ∃ d, lookupMigration hasTable db n = some d ∧ d.isDone = true) :
    findNextPending hasTable db l = none := by
  induction l with
  | nil => rfl
  | cons n rest ih =>
    obtain ⟨d, hd, hdone⟩ := h n (List.mem_cons_self n rest)
    simp only [findNextPending, hd, hdone, eq_self_iff_true, if_true]
    exact ih (fun m hm => h m (List.mem_cons_of_mem n hm))

/-- The step-5 scan returns the first listed migration that is absent
or not done, together with the remaining tail. -/
theorem findNextPending_split (hasTable : Bool) (db : List MigrationState)
    (pre : List String) (n : String) (rest : List String)
    (hpre : ∀ m ∈ pre, ∃ d, lookupMigration hasTable db m = some d ∧ d.isDone = true)
    (hn : lookupMigration hasTable db n = none ∨
      ∃ d, lookupMigration hasTable db n = some d ∧ d.isDone = false) :
    findNextPending hasTable db (pre ++ n :: rest) = some (n, rest) := by
  induction pre with
  | nil =>
    simp only [List.nil_append]
    rcases hn with h | ⟨d, hd, hdone⟩
    · simp [findNextPending, h]
    · simp [findNextPending, hd, hdone]
  | cons m pre ih =>
    obtain ⟨d, hd, hdone⟩ := hpre m (List.mem_cons_self m pre)
    simp only [List.cons_append, findNextPending, hd, hdone, eq_self_iff_true, if_true]
    exact ih (fun x hx => hpre x (List.mem_cons_of_mem m hx))

/-- Every invocation that is not a dry run and not a detected race
reaches steps 3 and 4 (`finishRun`) with some batch table and state. -/
theorem runMigration_reaches_finish (cfg : MigrationConfig) (env : Env) (args : MigrationArgs)
    (hdry : args.dryRun ≠ some true)
    (hra : (loadState cfg env args).hasId = false ∨
      args.cursor = some (loadState cfg env args).state.cursor ∨
      workerActive env.jobs (loadState cfg env args).state.workerId = false) :
    ∃ docs2 st1, runMigration cfg env args =
      finishRun cfg env args (loadState cfg env args).hasId
        (loadState cfg env args).stateDb docs2 st1 := by
  by_cases hA : (loadState cfg env args).hasId = false ∨
      args.cursor = some (loadState cfg env args).state.cursor
  · exact ⟨_, _, runMigration_exec_eq cfg env args hdry hA⟩
  · push_neg at hA
    obtain ⟨h1, h2⟩ := hA
    have hid : (loadState cfg env args).hasId = true := by
      cases hb : (loadState cfg env args).hasId
      · exact absurd hb h1
      · rfl
    have hwa : workerActive env.jobs (loadState cfg env args).state.workerId = false := by
      rcases hra with h | h | h
      · exact absurd h h1
      · exact absurd h h2
      · exact h
    have heq := runMigration_defer_eq cfg env args hdry hid h2
    rw [heq]
    simp only []
    rw [if_neg (by simp [hwa])]
    exact ⟨_, _, rfl⟩

/-- The state returned by the scheduling step: `workerId` is recorded
when the migration is not done, and the state is untouched otherwise. -/
theorem scheduleStep_fst (cfg : MigrationConfig) (env : Env) (args : MigrationArgs)
    (db1 : List MigrationState) (st1 : MigrationState) :
    (scheduleStep cfg env args db1 st1).1 =
      if st1.isDone = false then { st1 with workerId := some env.nextJobId } else st1 := by
  by_cases h : st1.isDone = false
  · simp [scheduleStep, h]
  · rw [if_neg h]
    have ht : st1.isDone = true := by
      cases hb : st1.isDone
      · exact absurd hb h
      · rfl
    rw [scheduleStep_done cfg env args db1 st1 ht]

/-- A batch-updated state always satisfies the done invariant: when the
page exhausted the table, `latestEnd` was stamped and `workerId`
cleared in the same assignment. -/
theorem doneInv_batch (base : MigrationState) (t : Nat) (b : Bool) (cur pc : Nat)
    (le0 w0 : Option Nat) :
    doneInv { base with
      cursor := some cur
      isDone := b
      processed := pc
      latestEnd := if b = true then some t else le0
      workerId := if b = true then none else w0 } := by
  intro hdone
  have hb : b = true := hdone
  subst hb
  constructor <;> simp

/-- Step 1 keeps the done invariant on every record of the migration
table (a freshly inserted record is not done). -/
theorem loadState_db_inv (cfg : MigrationConfig) (env : Env) (args : MigrationArgs)
    (henv : ∀ r ∈ env.stateDb, doneInv r) :
    ∀ r ∈ (loadState cfg env args).stateDb, doneInv r := by
  intro r hr
  by_cases ht : cfg.hasTable
  · cases hf : findByName env.stateDb args.fnName with
    | some s =>
      have hls : (loadState cfg env args).stateDb = env.stateDb := by
        simp [loadState, ht, hf]
      rw [hls] at hr
      exact henv r hr
    | none =>
      have hls : (loadState cfg env args).stateDb =
          env.stateDb ++ [initialState cfg env args] := by
        simp [loadState, ht, hf]
      rw [hls] at hr
      rcases List.mem_append.mp hr with h | h
      · exact henv r h
      · have hre : r = initialState cfg env args := by simpa using h
        subst hre
        intro hdone
        simp [initialState] at hdone
  · have hls : (loadState cfg env args).stateDb = env.stateDb := by
      simp [loadState, ht]
    rw [hls] at hr
    exact henv r hr

/-- Step 1's working state satisfies the done invariant whenever the
stored records do. -/
theorem loadState_state_inv (cfg : MigrationConfig) (env : Env) (args : MigrationArgs)
    (henv : ∀ r ∈ env.stateDb, doneInv r) :
    doneInv (loadState cfg env args).state := by
  by_cases ht : cfg.hasTable
  · cases hf : findByName env.stateDb args.fnName with
    | some s =>
      have hls : (loadState cfg env args).state = s := by simp [loadState, ht, hf]
      rw [hls]
      exact henv s (List.mem_of_find?_eq_some hf)
    | none =>
      have hls : (loadState cfg env args).state = initialState cfg env args := by
        simp [loadState, ht, hf]
      rw [hls]
      intro hdone
      simp [initialState] at hdone
  · have hls : (loadState cfg env args).state = initialState cfg env args := by
      simp [loadState, ht]
    rw [hls]
    intro hdone
    simp [initialState] at hdone

/-- Steps 3 and 4 keep the done invariant across the migration table. -/
theorem finishRun_preserves_inv (cfg : MigrationConfig) (env : Env) (args : MigrationArgs)
    (hasId : Bool) (db1 : List MigrationState) (docs2 : List Doc) (st1 : MigrationState)
    (hdb1 : ∀ r ∈ db1, doneInv r) (hst1 : doneInv st1)
    (henv : ∀ r ∈ env.stateDb, doneInv r) :
    ∀ r ∈ (finishRun cfg env args hasId db1 docs2 st1).stateDb, doneInv r := by
  intro r hr
  have hsc : doneInv (scheduleStep cfg env args db1 st1).1 := by
    rw [scheduleStep_fst]
    by_cases h : st1.isDone = false
    · rw [if_pos h]
      intro hdone
      have : st1.isDone = true := hdone
      rw [h] at this
      cases this
    · rw [if_neg h]
      exact hst1
  by_cases hd : args.dryRun.getD false = true
  · have hfd : (finishRun cfg env args hasId db1 docs2 st1).stateDb = env.stateDb := by
      simp [finishRun, hd]
    rw [hfd] at hr
    exact henv r hr
  · have hfd : (finishRun cfg env args hasId db1 docs2 st1).stateDb =
        if hasId = true then patchState db1 args.fnName (scheduleStep cfg env args db1 st1).1
        else db1 := by
      simp [finishRun, hd]
    rw [hfd] at hr
    by_cases hid : hasId = true
    · rw [if_pos hid] at hr
      rcases mem_patchState hr with h | h
      · rw [h]
        exact hsc
      · exact hdb1 r h
    · rw [if_neg hid] at hr
      exact hdb1 r hr

/-! ### Claims -/

/-- C1 (code bug): `cancelMigration` on a migration that is *not* done
(`isDone = false`) whose recorded worker job is pending returns the bare
stored state without requesting cancellation from the scheduler — the
guard `if (!state.isDone) return state` is inverted relative to the
function's own documentation ("Cancels a migration if it's in progress")
and to the spec, which say a done migration is the no-op case and an
in-progress one is cancelled with `workerStatus: "canceled"`. -/
theorem cancelMigration_ignores_active_worker :
    cancelMigration
        [{ name := "m", table := "t", cursor := some 2, isDone := false, workerId := some 0,
           processed := 2, latestStart := 5, latestEnd := none }]
        (fun n => if n = 0 then some { state := .pending, args := { fnName := "m" } } else none)
        "m" =
      .ok { state := { name := "m", table := "t", cursor := some 2, isDone := false,
                       workerId := some 0, processed := 2, latestStart := 5, latestEnd := none }
            workerStatus := none
            cancelCalled := false } := by
  decide

/-- C2: every invocation of the batch-step mutation with `dryRun = true`
throws the structured diagnostic error, so the migration table, the
target table and the set of durably scheduled jobs are unchanged, and
the error payload carries the first document of the page before and
after the would-be patch together with the computed state fields. -/
theorem dryRun_rolls_back_with_diagnostics (cfg : MigrationConfig) (env : Env)
    (fnName : String) (curArg : Option (Option Nat)) (bs : Option Nat)
    (nx : Option (List String)) :
    let args : MigrationArgs :=
      { fnName := fnName, cursor := curArg, batchSize := bs, next := nx, dryRun := some true }
    let out := runMigration cfg env args
    let lr := loadState cfg env args
    let numItems :=
      bs.getD (cfg.fnDefaultBatchSize.getD (cfg.optsDefaultBatchSize.getD DEFAULT_BATCH_SIZE))
    let cur := if curArg.isSome then curArg.getD none else lr.state.cursor
    let pos := cursorPos cur
    let page := (env.docs.drop pos).take numItems
    let docs2 := applyBatch cfg.migrateOne env.docs page
    out.stateDb = env.stateDb ∧ out.docs = env.docs ∧ out.scheduled = [] ∧
      ∃ st, out.result = .error (.dryRunBatch page.head?
            (page.head?.bind fun d => getDoc docs2 d.id) st) ∧
          st.cursor = some (pos + page.length) ∧
          st.isDone = decide ((env.docs.drop pos).length ≤ numItems) ∧
          st.processed = lr.state.processed + page.length := by
  intro args out lr numItems cur pos page docs2
  have h := runMigration_dryRun_eq cfg env fnName curArg bs nx
  rw [show out = _ from h]
  refine ⟨rfl, rfl, rfl, ?_⟩
  refine ⟨_, rfl, ?_, ?_, ?_⟩
  · rfl
  · rfl
  · rfl

/-- C10: on a dry run the diagnostic error is thrown before the
scheduling step, so no scheduler call is ever made during the
invocation: no continuation job and no next-in-series job is created. -/
theorem dryRun_makes_no_scheduler_calls (cfg : MigrationConfig) (env : Env)
    (fnName : String) (curArg : Option (Option Nat)) (bs : Option Nat)
    (nx : Option (List String)) :
    let out := runMigration cfg env
      { fnName := fnName, cursor := curArg, batchSize := bs, next := nx, dryRun := some true }
    out.calls = [] ∧ out.scheduled = [] ∧ ∃ e, out.result = .error e := by
  intro out
  have h := runMigration_dryRun_eq cfg env fnName curArg bs nx
  rw [show out = _ from h]
  exact ⟨rfl, rfl, _, rfl⟩

/-- C3: when a persisted state record exists, the supplied cursor
differs from the stored one, `dryRun` is not set, and the recorded
worker's job is pending or in progress, the invocation is a no-op: it
returns the stored state unchanged, commits no write to the migration
table or the target table, and makes no scheduler call. -/
theorem active_worker_race_is_noop (cfg : MigrationConfig) (env : Env) (args : MigrationArgs)
    (s : MigrationState) (w : Nat) (j : Job)
    (hT : cfg.hasTable = true)
    (hs : findByName env.stateDb args.fnName = some s)
    (hcur : args.cursor ≠ some s.cursor)
    (hdry : args.dryRun ≠ some true)
    (hw : s.workerId = some w)
    (hj : env.jobs w = some j)
    (hactive : j.state = .pending ∨ j.state = .inProgress) :
    runMigration cfg env args =
      { result := .ok s, calls := [], stateDb := env.stateDb, docs := env.docs,
        scheduled := [] } := by
  have hl : loadState cfg env args = { state := s, hasId := true, stateDb := env.stateDb } :=
    loadState_found cfg env args s hT hs
  have hwa : workerActive env.jobs s.workerId = true := by
    simp [workerActive, hw, hj, hactive]
  rw [runMigration_defer_eq cfg env args hdry (by rw [hl]) (by rw [hl]; exact hcur)]
  simp [hl, hwa]

/-- C6: when a persisted record exists, no active worker job is found,
and the caller supplied an explicit cursor (possibly `null`) different
from the stored one, the committed state has the supplied cursor,
`isDone = false`, `latestStart` equal to the current time, and
`processed` reset to 0. -/
theorem explicit_cursor_restart_resets_state (cfg : MigrationConfig) (env : Env)
    (args : MigrationArgs) (s : MigrationState) (c : Option Nat)
    (hT : cfg.hasTable = true)
    (hs : findByName env.stateDb args.fnName = some s)
    (hc : args.cursor = some c)
    (hne : c ≠ s.cursor)
    (hdry : args.dryRun ≠ some true)
    (hwa : workerActive env.jobs s.workerId = false) :
    ∃ st, (runMigration cfg env args).result = .ok st ∧
      st.cursor = c ∧ st.isDone = false ∧ st.latestStart = env.now ∧ st.processed = 0 ∧
      findByName (runMigration cfg env args).stateDb args.fnName = some st := by
  have hl : loadState cfg env args = { state := s, hasId := true, stateDb := env.stateDb } :=
    loadState_found cfg env args s hT hs
  have hname : s.name = args.fnName := by
    have := List.find?_some hs
    exact beq_iff_eq.mp this
  have hcur : args.cursor ≠ some s.cursor := by
    rw [hc]
    intro hx
    exact hne (Option.some.inj hx)
  have heq := runMigration_defer_eq cfg env args hdry (by rw [hl]) (by rw [hl]; exact hcur)
  rw [hl, hc] at heq
  simp only [] at heq
  rw [heq]
  rw [if_neg (by simp [hwa])]
  rw [finishRun_eq cfg env args true env.stateDb env.docs _ hdry]
  rw [scheduleStep_not_done cfg env args env.stateDb _ rfl]
  refine ⟨_, rfl, rfl, rfl, rfl, rfl, ?_⟩
  simp only [if_pos]
  exact findByName_patchState env.stateDb args.fnName _ s (by simpa using hname) hs

/-- C4: when a batch executes (stateless mode or matching cursor, no
dry run), the engine paginates from the effective cursor fetching at
most `batchSize` documents (`args.batchSize`, else the function
default, else the `makeMigration` default, else 100), patches exactly
the documents whose transform returns a payload, and afterwards the
state's `cursor` is the continuation token, `isDone` the exhaustion
flag, and `processed` grows by the page length; when pagination is done
`latestEnd` is stamped with the current time and `workerId` cleared. -/
theorem batch_execution_spec (cfg : MigrationConfig) (env : Env) (args : MigrationArgs)
    (hdry : args.dryRun ≠ some true)
    (hexec : (loadState cfg env args).hasId = false ∨
      args.cursor = some (loadState cfg env args).state.cursor) :
    let lr := loadState cfg env args
    let numItems := args.batchSize.getD
      (cfg.fnDefaultBatchSize.getD (cfg.optsDefaultBatchSize.getD DEFAULT_BATCH_SIZE))
    let pos := cursorPos lr.state.cursor
    let page := (env.docs.drop pos).take numItems
    let out := runMigration cfg env args
    page.length ≤ numItems ∧
      out.docs = applyBatch cfg.migrateOne env.docs page ∧
      ∃ st, out.result = .ok st ∧
        st.cursor = some (pos + page.length) ∧
        st.isDone = decide ((env.docs.drop pos).length ≤ numItems) ∧
        st.processed = lr.state.processed + page.length ∧
        (st.isDone = true → st.latestEnd = some env.now ∧ st.workerId = none) := by
  intro lr numItems pos page out
  have hd : args.dryRun.getD false = false := Option.getD_false_of_ne_some_true hdry
  have heq := runMigration_exec_eq cfg env args hdry hexec
  have hlen : page.length ≤ numItems := by
    show (List.take numItems (List.drop pos env.docs)).length ≤ numItems
    simp only [List.length_take]
    exact min_le_left _ _
  have heq2 : out =
      finishRun cfg env args lr.hasId lr.stateDb (applyBatch cfg.migrateOne env.docs page)
        { lr.state with
          cursor := some (pos + page.length)
          isDone := decide ((env.docs.drop pos).length ≤ numItems)
          processed := lr.state.processed + page.length
          latestEnd :=
            if decide ((env.docs.drop pos).length ≤ numItems) = true then some env.now
            else lr.state.latestEnd
          workerId :=
            if decide ((env.docs.drop pos).length ≤ numItems) = true then none
            else lr.state.workerId } := heq
  by_cases hdone : (env.docs.drop pos).length ≤ numItems
  · refine ⟨hlen, ?_, ?_⟩
    · rw [heq2, finishRun_eq cfg env args lr.hasId lr.stateDb _ _ hdry,
        scheduleStep_done cfg env args lr.stateDb _ (by simp only [decide_eq_true_eq]; exact hdone)]
    · refine ⟨{ lr.state with
          cursor := some (pos + page.length)
          isDone := true
          processed := lr.state.processed + page.length
          latestEnd := some env.now
          workerId := none }, ?_, rfl, (decide_eq_true hdone).symm, rfl, fun _ => ⟨rfl, rfl⟩⟩
      have hb : decide ((List.drop pos env.docs).length ≤ numItems) = true := decide_eq_true hdone
      rw [heq2, finishRun_eq cfg env args lr.hasId lr.stateDb _ _ hdry,
        scheduleStep_done cfg env args lr.stateDb _ (by simp only [decide_eq_true_eq]; exact hdone)]
      simp only [hb, eq_self_iff_true, if_true]
  · refine ⟨hlen, ?_, ?_⟩
    · rw [heq2, finishRun_eq cfg env args lr.hasId lr.stateDb _ _ hdry,
        scheduleStep_not_done cfg env args lr.stateDb _ (by simp only [decide_eq_false_iff_not]; exact hdone)]
    · refine ⟨{ lr.state with
          cursor := some (pos + page.length)
          isDone := false
          processed := lr.state.processed + page.length
          latestEnd := lr.state.latestEnd
          workerId := some env.nextJobId }, ?_, rfl, (decide_eq_false hdone).symm, rfl,
        fun hh => absurd hh (by simp)⟩
      have hb : decide ((List.drop pos env.docs).length ≤ numItems) = false := decide_eq_false hdone
      rw [heq2, finishRun_eq cfg env args lr.hasId lr.stateDb _ _ hdry,
        scheduleStep_not_done cfg env args lr.stateDb _ (by simp only [decide_eq_false_iff_not]; exact hdone)]
      simp only [hb, Bool.false_eq_true, if_false]

/-- C5: every non-dry-run invocation that reaches the scheduling step
schedules as follows: if the state is not done, exactly one
continuation job for the same `fnName` with zero delay whose `cursor`
argument is the state's cursor, the job id being recorded as
`workerId`; if the state is done, only the first migration of `next`
whose persisted record is absent or not done, with the remaining tail
as its own `next` — and nothing when every listed migration is done. -/
theorem scheduling_step_spec (cfg : MigrationConfig) (env : Env) (args : MigrationArgs)
    (hdry : args.dryRun ≠ some true)
    (hra : (loadState cfg env args).hasId = false ∨
      args.cursor = some (loadState cfg env args).state.cursor ∨
      workerActive env.jobs (loadState cfg env args).state.workerId = false) :
    let lr := loadState cfg env args
    let out := runMigration cfg env args
    ∃ st, out.result = .ok st ∧
      (st.isDone = false →
        out.calls = [{ id := env.nextJobId, delay := 0, fnName := args.fnName
                       args := { args with cursor := some st.cursor } }] ∧
        st.workerId = some env.nextJobId) ∧
      (st.isDone = true →
        ((∀ n ∈ args.next.getD [],
            ∃ d, lookupMigration cfg.hasTable lr.stateDb n = some d ∧ d.isDone = true) →
          out.calls = []) ∧
        (∀ pre n rest, args.next.getD [] = pre ++ n :: rest → n ≠ "" →
          (∀ m ∈ pre,
            ∃ d, lookupMigration cfg.hasTable lr.stateDb m = some d ∧ d.isDone = true) →
          (lookupMigration cfg.hasTable lr.stateDb n = none ∨
            ∃ d, lookupMigration cfg.hasTable lr.stateDb n = some d ∧ d.isDone = false) →
          out.calls = [{ id := env.nextJobId, delay := 0, fnName := n
                         args := { fnName := n, cursor := none, batchSize := none,
                                   next := some rest, dryRun := none } }])) := by
  intro lr out
  obtain ⟨docs2, st1, heq⟩ := runMigration_reaches_finish cfg env args hdry hra
  have heq2 : out = finishRun cfg env args lr.hasId lr.stateDb docs2 st1 := heq
  by_cases hdone : st1.isDone = true
  · simp only [heq2, finishRun_eq cfg env args lr.hasId lr.stateDb docs2 st1 hdry,
      scheduleStep_done cfg env args lr.stateDb st1 hdone]
    refine ⟨st1, rfl, ?_, ?_⟩
    · intro hfalse
      rw [hdone] at hfalse
      cases hfalse
    · intro _
      constructor
      · intro hall
        have hnone : findNextPending cfg.hasTable lr.stateDb (args.next.getD []) = none :=
          findNextPending_eq_none _ _ _ hall
        simp [hnone]
      · intro pre n rest hsplit hne hpre hn
        have hsome : findNextPending cfg.hasTable lr.stateDb (args.next.getD []) =
            some (n, rest) := by
          rw [hsplit]
          exact findNextPending_split _ _ pre n rest hpre hn
        simp [hsome, hne]
  · have hdf : st1.isDone = false := by
      cases hb : st1.isDone
      · rfl
      · exact absurd hb hdone
    simp only [heq2, finishRun_eq cfg env args lr.hasId lr.stateDb docs2 st1 hdry,
      scheduleStep_not_done cfg env args lr.stateDb st1 hdf]
    refine ⟨{ st1 with workerId := some env.nextJobId }, rfl, ?_, ?_⟩
    · intro _
      exact ⟨rfl, rfl⟩
    · intro htrue
      rw [show ({ st1 with workerId := some env.nextJobId } :
        MigrationState).isDone = st1.isDone from rfl, hdf] at htrue
      cases htrue

/-- C8: `startMigrationsSerially` on a non-empty list schedules exactly
one job — the first migration of the list, with zero delay, with the
names of all remaining migrations in order as its `next` argument — and
its type shows it reads and writes no migration state (it only uses the
scheduler). -/
theorem startMigrationsSerially_schedules_first (nextJobId : Nat) (fnRef : String)
    (rest : List String) :
    startMigrationsSerially nextJobId (fnRef :: rest) =
        [{ id := nextJobId, delay := 0, fnName := fnRef
           args := { fnName := fnRef, cursor := none, batchSize := none, next := some rest,
                     dryRun := none } }] ∧
      (startMigrationsSerially nextJobId (fnRef :: rest)).length = 1 := by
  exact ⟨rfl, rfl⟩

/-- C7 (counterexample): the claimed "latestEnd present iff isDone"
fails.  Restarting a done migration (`latestEnd = some 10`) with an
explicit `null` cursor commits a record with `isDone = false` whose
`latestEnd` is still `some 10`: the explicit-cursor reset clears
`cursor`/`processed`/`latestStart`/`isDone` but never `latestEnd`. -/
theorem latestEnd_survives_restart :
    let s0 : MigrationState :=
      { name := "m", table := "t", cursor := some 1, isDone := true, workerId := none,
        processed := 1, latestStart := 0, latestEnd := some 10 }
    let cfg : MigrationConfig :=
      { hasTable := true, table := "t", migrateOne := fun _ => none }
    let env : Env :=
      { stateDb := [s0], docs := [], jobs := fun _ => none, now := 20, nextJobId := 5 }
    let out := runMigration cfg env { fnName := "m", cursor := some none }
    ∃ r, findByName out.stateDb "m" = some r ∧ r.isDone = false ∧ r.latestEnd = some 10 := by
  intro s0 cfg env out
  exact ⟨{ name := "m", table := "t", cursor := none, isDone := false, workerId := some 5,
           processed := 0, latestStart := 20, latestEnd := some 10 },
    by decide, by decide, by decide⟩

/-- C7 (amended): of the claimed equivalence, the code maintains the
direction "isDone implies latestEnd set and workerId cleared" on every
committed record; the converse (`latestEnd` absent when not done) is
refuted by the restart counterexample, since the explicit-cursor reset
leaves a stale `latestEnd` on a record with `isDone = false`. -/
theorem done_state_invariant_preserved (cfg : MigrationConfig) (env : Env)
    (args : MigrationArgs)
    (hinv : ∀ r ∈ env.stateDb, doneInv r) :
    ∀ r ∈ (runMigration cfg env args).stateDb, doneInv r := by
  by_cases hdry : args.dryRun = some true
  · obtain ⟨f, ca, bs, nx, d⟩ := args
    have hd : d = some true := hdry
    subst hd
    have h := runMigration_dryRun_eq cfg env f ca bs nx
    rw [h]
    intro r hr
    exact hinv r hr
  · by_cases hA : (loadState cfg env args).hasId = false ∨
        args.cursor = some (loadState cfg env args).state.cursor
    · have heq := runMigration_exec_eq cfg env args hdry hA
      rw [heq]
      exact finishRun_preserves_inv cfg env args _ _ _ _
        (loadState_db_inv cfg env args hinv) (doneInv_batch _ _ _ _ _ _ _) hinv
    · push_neg at hA
      obtain ⟨h1, h2⟩ := hA
      have hid : (loadState cfg env args).hasId = true := by
        cases hb : (loadState cfg env args).hasId
        · exact absurd hb h1
        · rfl
      have heq := runMigration_defer_eq cfg env args hdry hid h2
      by_cases hwa : workerActive env.jobs (loadState cfg env args).state.workerId = true
      · have hout : runMigration cfg env args =
            { result := .ok (loadState cfg env args).state, calls := []
              stateDb := (loadState cfg env args).stateDb, docs := env.docs
              scheduled := [] } := by
          rw [heq]
          simp only []
          rw [if_pos hwa]
        rw [hout]
        intro r hr
        exact loadState_db_inv cfg env args hinv r hr
      · have hout : runMigration cfg env args =
            finishRun cfg env args (loadState cfg env args).hasId
              (loadState cfg env args).stateDb env.docs
              (match args.cursor with
                | some c =>
                  { (loadState cfg env args).state with
                    cursor := c
                    isDone := false
                    latestStart := env.now
                    processed := 0 }
                | none => (loadState cfg env args).state) := by
          rw [heq]
          simp only []
          rw [if_neg hwa]
        rw [hout]
        refine finishRun_preserves_inv cfg env args _ _ _ _
          (loadState_db_inv cfg env args hinv) ?_ hinv
        cases hc : args.cursor with
        | some c =>
          intro hdone
          exact absurd hdone (by simp)
        | none => exact loadState_state_inv cfg env args hinv

/-- C9: each migration `getStatus` is asked about (by name, or among
the ten most recent records) is returned as its stored state together
with the worker enrichment — `workerStatus` is the live job state and
`batchSize`/`next` are read from the job's arguments — where a done
record (whose `workerId` the engine has cleared) carries the same three
fields absent; the function takes only a database reader and returns
values, performing no write. -/
theorem getStatus_enriches_with_worker_info (db : List MigrationState)
    (jobs : Nat → Option Job) (names : List String)
    (hinv : ∀ r ∈ db, r.isDone = true → r.workerId = none) :
    (∀ n ∈ names, ∀ s, findByName db n = some s →
      statusOf jobs s ∈ getStatus db jobs (some names) ∧
      (statusOf jobs s).stateOf = some s ∧
      (statusOf jobs s).workerStatus = (s.workerId.bind jobs).map (fun j => j.state) ∧
      (statusOf jobs s).batchSizeOf = (s.workerId.bind jobs).bind (fun j => j.args.batchSize) ∧
      (statusOf jobs s).nextOf = (s.workerId.bind jobs).bind (fun j => j.args.next)) ∧
    (∀ s ∈ db.reverse.take 10,
      statusOf jobs s ∈ getStatus db jobs none ∧
      (statusOf jobs s).stateOf = some s ∧
      (statusOf jobs s).workerStatus = (s.workerId.bind jobs).map (fun j => j.state) ∧
      (statusOf jobs s).batchSizeOf = (s.workerId.bind jobs).bind (fun j => j.args.batchSize) ∧
      (statusOf jobs s).nextOf = (s.workerId.bind jobs).bind (fun j => j.args.next)) := by
  have hproj : ∀ s ∈ db,
      (statusOf jobs s).stateOf = some s ∧
      (statusOf jobs s).workerStatus = (s.workerId.bind jobs).map (fun j => j.state) ∧
      (statusOf jobs s).batchSizeOf = (s.workerId.bind jobs).bind (fun j => j.args.batchSize) ∧
      (statusOf jobs s).nextOf = (s.workerId.bind jobs).bind (fun j => j.args.next) := by
    intro s hs
    by_cases hd : s.isDone = true
    · have hw : s.workerId = none := hinv s hs hd
      simp [statusOf, hd, hw, StatusEntry.stateOf, StatusEntry.workerStatus,
        StatusEntry.batchSizeOf, StatusEntry.nextOf]
    · simp [statusOf, hd, StatusEntry.stateOf, StatusEntry.workerStatus,
        StatusEntry.batchSizeOf, StatusEntry.nextOf]
  constructor
  · intro n hn s hfind
    have hs : s ∈ db := List.mem_of_find?_eq_some hfind
    refine ⟨?_, hproj s hs⟩
    have : statusOf jobs s =
        (fun n => match findByName db n with
          | some s => statusOf jobs s
          | none => StatusEntry.notFound n) n := by
      simp [hfind]
    rw [this]
    exact List.mem_map_of_mem _ hn
  · intro s hs
    have hsdb : s ∈ db := by
      have := List.mem_of_mem_take hs
      exact List.mem_reverse.mp this
    refine ⟨?_, hproj s hsdb⟩
    exact List.mem_map_of_mem _ hs

/-! ### Witnesses -/

theorem active_worker_race_is_noop_witness :
    let s : MigrationState :=
      { name := "m", table := "t", cursor := some 2, isDone := false, workerId := some 0,
        processed := 2, latestStart := 5, latestEnd := none }
    let cfg : MigrationConfig := { hasTable := true, table := "t", migrateOne := fun _ => none }
    let env : Env :=
      { stateDb := [s], docs := [{ id := 1, val := 1 }]
        jobs := fun n => if n = 0 then some { state := .pending, args := { fnName := "m" } }
          else none
        now := 9, nextJobId := 7 }
    runMigration cfg env { fnName := "m" } =
      { result := .ok s, calls := [], stateDb := [s], docs := [{ id := 1, val := 1 }]
        scheduled := [] } := by
  intro s cfg env
  exact active_worker_race_is_noop cfg env { fnName := "m" } s 0
    { state := .pending, args := { fnName := "m" } }
    rfl (by decide) (by decide) (by decide) rfl (by decide) (Or.inl rfl)

theorem batch_execution_spec_witness :
    let cfg : MigrationConfig :=
      { hasTable := true, table := "t", migrateOne := fun d => some (d.val + 1) }
    let env : Env :=
      { stateDb := [], docs := [{ id := 1, val := 1 }, { id := 2, val := 2 },
          { id := 3, val := 3 }]
        jobs := fun _ => none, now := 4, nextJobId := 9 }
    let args : MigrationArgs := { fnName := "m", cursor := some none, batchSize := some 2 }
    let lr := loadState cfg env args
    let numItems := args.batchSize.getD
      (cfg.fnDefaultBatchSize.getD (cfg.optsDefaultBatchSize.getD DEFAULT_BATCH_SIZE))
    let pos := cursorPos lr.state.cursor
    let page := (env.docs.drop pos).take numItems
    let out := runMigration cfg env args
    page.length ≤ numItems ∧
      out.docs = applyBatch cfg.migrateOne env.docs page ∧
      ∃ st, out.result = .ok st ∧
        st.cursor = some (pos + page.length) ∧
        st.isDone = decide ((env.docs.drop pos).length ≤ numItems) ∧
        st.processed = lr.state.processed + page.length ∧
        (st.isDone = true → st.latestEnd = some env.now ∧ st.workerId = none) := by
  intro cfg env args
  exact batch_execution_spec cfg env args (by decide) (by decide)

theorem scheduling_step_spec_witness :
    let cfg : MigrationConfig := { hasTable := false, table := "t", migrateOne := fun _ => none }
    let env : Env :=
      { stateDb := [], docs := [], jobs := fun _ => none, now := 0, nextJobId := 3 }
    let args : MigrationArgs := { fnName := "m", next := some ["x"] }
    let lr := loadState cfg env args
    let out := runMigration cfg env args
    ∃ st, out.result = .ok st ∧
      (st.isDone = false →
        out.calls = [{ id := env.nextJobId, delay := 0, fnName := args.fnName
                       args := { args with cursor := some st.cursor } }] ∧
        st.workerId = some env.nextJobId) ∧
      (st.isDone = true →
        ((∀ n ∈ args.next.getD [],
            ∃ d, lookupMigration cfg.hasTable lr.stateDb n = some d ∧ d.isDone = true) →
          out.calls = []) ∧
        (∀ pre n rest, args.next.getD [] = pre ++ n :: rest → n ≠ "" →
          (∀ m ∈ pre,
            ∃ d, lookupMigration cfg.hasTable lr.stateDb m = some d ∧ d.isDone = true) →
          (lookupMigration cfg.hasTable lr.stateDb n = none ∨
            ∃ d, lookupMigration cfg.hasTable lr.stateDb n = some d ∧ d.isDone = false) →
          out.calls = [{ id := env.nextJobId, delay := 0, fnName := n
                         args := { fnName := n, cursor := none, batchSize := none,
                                   next := some rest, dryRun := none } }])) := by
  intro cfg env args
  exact scheduling_step_spec cfg env args (by decide) (by decide)

theorem explicit_cursor_restart_resets_state_witness :
    let s : MigrationState :=
      { name := "m", table := "t", cursor := some 2, isDone := false, workerId := none,
        processed := 2, latestStart := 5, latestEnd := none }
    let cfg : MigrationConfig := { hasTable := true, table := "t", migrateOne := fun _ => none }
    let env : Env :=
      { stateDb := [s], docs := [], jobs := fun _ => none, now := 11, nextJobId := 4 }
    let args : MigrationArgs := { fnName := "m", cursor := some none }
    ∃ st, (runMigration cfg env args).result = .ok st ∧
      st.cursor = none ∧ st.isDone = false ∧ st.latestStart = env.now ∧ st.processed = 0 ∧
      findByName (runMigration cfg env args).stateDb args.fnName = some st := by
  intro s cfg env args
  exact explicit_cursor_restart_resets_state cfg env args s none
    rfl (by decide) rfl (by decide) (by decide) (by decide)

theorem done_state_invariant_preserved_witness :
    let s : MigrationState :=
      { name := "m", table := "t", cursor := some 1, isDone := true, workerId := none,
        processed := 1, latestStart := 0, latestEnd := some 10 }
    let cfg : MigrationConfig := { hasTable := true, table := "t", migrateOne := fun _ => none }
    let env : Env :=
      { stateDb := [s], docs := [], jobs := fun _ => none, now := 20, nextJobId := 5 }
    ∀ r ∈ (runMigration cfg env { fnName := "m" }).stateDb, doneInv r := by
  intro s cfg env
  exact done_state_invariant_preserved cfg env { fnName := "m" } (by decide)

theorem getStatus_enriches_with_worker_info_witness :
    let s : MigrationState :=
      { name := "m", table := "t", cursor := some 2, isDone := false, workerId := some 0,
        processed := 2, latestStart := 5, latestEnd := none }
    let jobs : Nat → Option Job :=
      fun n => if n = 0 then
        some { state := .inProgress
               args := { fnName := "m", batchSize := some 5, next := some ["q"] } }
      else none
    (∀ n ∈ ["m"], ∀ t, findByName [s] n = some t →
      statusOf jobs t ∈ getStatus [s] jobs (some ["m"]) ∧
      (statusOf jobs t).stateOf = some t ∧
      (statusOf jobs t).workerStatus = (t.workerId.bind jobs).map (fun j => j.state) ∧
      (statusOf jobs t).batchSizeOf = (t.workerId.bind jobs).bind (fun j => j.args.batchSize) ∧
      (statusOf jobs t).nextOf = (t.workerId.bind jobs).bind (fun j => j.args.next)) ∧
    (∀ t ∈ ([s] : List MigrationState).reverse.take 10,
      statusOf jobs t ∈ getStatus [s] jobs none ∧
      (statusOf jobs t).stateOf = some t ∧
      (statusOf jobs t).workerStatus = (t.workerId.bind jobs).map (fun j => j.state) ∧
      (statusOf jobs t).batchSizeOf = (t.workerId.bind jobs).bind (fun j => j.args.batchSize) ∧
      (statusOf jobs t).nextOf = (t.workerId.bind jobs).bind (fun j => j.args.next)) := by
  intro s jobs
  exact getStatus_enriches_with_worker_info [s] jobs ["m"] (by decide)

end ConvexMigrations
